import Mathlib

/-!
Shallow embedding of the intake-aggregation core of `src/index.js`
(the Express handlers `POST /api/intake/add/:id`, `PUT /api/intake/edit/:id`,
`POST /api/intake/remove/:id`).

Modelling choices:
* JavaScript numbers are modelled as `JNum`: either `nan` or an exact
  rational `val q`.  JS arithmetic on NaN (absorbing `+`/`-`, all `<`
  comparisons false) is embedded in `jadd`, `jsub`, `jlt`.
* JSON payload values are `JVal` (null, booleans, numbers, NaN, strings);
  the JS cast `Number(v)` is `jsNumber` (the string case covers the
  integer fragment of JS string-to-number parsing plus the empty string).
* The two Postgres tables `daily_intakes` / `weekly_intakes` are lists of
  rows; `SELECT ... WHERE user_id AND date` is `selectRow` (first match),
  `INSERT` appends, `UPDATE ... WHERE user_id AND date` rewrites every
  matching row, and `INSERT ... ON CONFLICT (user_id, date) DO UPDATE`
  is `upsertRow`.  The `updated_at` timestamp column is outside the
  embedding (wall-clock time).
* Each route handler becomes a pure function `Store → ... → Resp × Store`;
  returning the unchanged store before any table is consulted models the
  early 400 returns that happen before any `pool.query` call.
-/

/-- The six nutrient columns of an intake row. -/
inductive NutrientField where
  | calories
  | protein
  | carbs
  | fats
  | fiber
  | water
  deriving DecidableEq, Repr

/-- Source: `const NUTRIENT_FIELDS = ["calories", "protein", "carbs", "fats", "fiber", "water"]`. -/
def NUTRIENT_FIELDS : List NutrientField :=
  [NutrientField.calories, NutrientField.protein, NutrientField.carbs,
   NutrientField.fats, NutrientField.fiber, NutrientField.water]

/-- The JSON key naming each nutrient field. -/
def fieldName : NutrientField → String
  | NutrientField.calories => "calories"
  | NutrientField.protein => "protein"
  | NutrientField.carbs => "carbs"
  | NutrientField.fats => "fats"
  | NutrientField.fiber => "fiber"
  | NutrientField.water => "water"

/-- A JavaScript number: NaN or an exact rational. -/
inductive JNum where
  | nan
  | val (q : ℚ)
  deriving DecidableEq, Repr

/-- JS addition: NaN is absorbing. -/
def jadd : JNum → JNum → JNum
  | JNum.val a, JNum.val b => JNum.val (a + b)
  | _, _ => JNum.nan

/-- JS subtraction: NaN is absorbing. -/
def jsub : JNum → JNum → JNum
  | JNum.val a, JNum.val b => JNum.val (a - b)
  | _, _ => JNum.nan

/-- JS `<` comparison: any comparison involving NaN is false. -/
def jlt : JNum → JNum → Bool
  | JNum.val a, JNum.val b => decide (a < b)
  | _, _ => false

/-- Source: `const clampNonNeg = (n) => (n < 0 ? 0 : n)`. -/
def clampNonNeg (n : JNum) : JNum :=
  if jlt n (JNum.val 0) then JNum.val 0 else n

/-- Whether a stored value is an actual number that is `≥ 0`. -/
def JNum.isNonneg : JNum → Bool
  | JNum.val q => decide (0 ≤ q)
  | JNum.nan => false

/-- A JSON value as it may appear for a nutrient field in a request body. -/
inductive JVal where
  | null
  | jbool (b : Bool)
  | num (q : ℚ)
  | nan
  | str (s : String)
  deriving DecidableEq, Repr

/-- The value of a decimal digit character, `none` for any other character. -/
def digitVal (c : Char) : Option Nat :=
  if c.isDigit then some (c.toNat - 48) else none

/-- Accumulate a decimal numeral left to right; any non-digit fails. -/
def parseDigits : List Char → Nat → Option Nat
  | [], acc => some acc
  | c :: rest, acc =>
      match digitVal c with
      | some dv => parseDigits rest (acc * 10 + dv)
      | none => none

/-- JS string-to-number coercion, restricted to the fragment the embedding
needs: the empty string is `0`, an optional-minus decimal numeral is its
value, and every other string (e.g. `"abc"`) is NaN, as in JS. -/
def jsParseNumber (s : String) : JNum :=
  match s.data with
  | [] => JNum.val 0
  | '-' :: c :: rest =>
      (match parseDigits (c :: rest) 0 with
       | some n => JNum.val (-(n : ℚ))
       | none => JNum.nan)
  | cs =>
      (match parseDigits cs 0 with
       | some n => JNum.val (n : ℚ)
       | none => JNum.nan)

/-- The JS cast `Number(v)`. -/
def jsNumber : JVal → JNum
  | JVal.null => JNum.val 0
  | JVal.jbool b => JNum.val (if b then 1 else 0)
  | JVal.num q => JNum.val q
  | JVal.nan => JNum.nan
  | JVal.str s => jsParseNumber s

/-- Source: `Number(payload[f] ?? 0)` — an absent key (or JSON null, which
`??` also replaces by `0`) contributes `0`; any present value goes through
the `Number` cast. -/
def coerceField (payload : String → Option JVal) (f : NutrientField) : JNum :=
  match payload (fieldName f) with
  | none => JNum.val 0
  | some JVal.null => JNum.val 0
  | some v => jsNumber v

/-- One stored intake row's nutrient columns. -/
structure IntakeRecord where
  calories : JNum
  protein : JNum
  carbs : JNum
  fats : JNum
  fiber : JNum
  water : JNum
  deriving DecidableEq, Repr

/-- Build a record from a per-field value (the embedding of the
`NUTRIENT_FIELDS.map` / `forEach` loops in the handlers). -/
def mkRecord (g : NutrientField → JNum) : IntakeRecord :=
  IntakeRecord.mk (g NutrientField.calories) (g NutrientField.protein)
    (g NutrientField.carbs) (g NutrientField.fats) (g NutrientField.fiber)
    (g NutrientField.water)

/-- Project a nutrient field out of a record. -/
def IntakeRecord.get (r : IntakeRecord) : NutrientField → JNum
  | NutrientField.calories => r.calories
  | NutrientField.protein => r.protein
  | NutrientField.carbs => r.carbs
  | NutrientField.fats => r.fats
  | NutrientField.fiber => r.fiber
  | NutrientField.water => r.water

/-- The all-zero baseline object of the `remove` handler. -/
def zeroRecord : IntakeRecord := mkRecord (fun _ => JNum.val 0)

/-- Every nutrient field of the record is a real number `≥ 0`. -/
def IntakeRecord.allNonneg (r : IntakeRecord) : Bool :=
  NUTRIENT_FIELDS.all (fun f => (r.get f).isNonneg)

/-- One row of an intake table (`user_id`, `date`, nutrient columns). -/
structure Row where
  user_id : String
  date : String
  intake : IntakeRecord
  deriving DecidableEq, Repr

/-- The value of the uniqueness constraint `(user_id, date)` on a row. -/
def Row.key (r : Row) : String × String := (r.user_id, r.date)

/-- The `WHERE user_id = $1 AND date = $2` predicate. -/
def rowMatches (u d : String) (r : Row) : Bool :=
  r.user_id == u && r.date == d

/-- `SELECT * FROM t WHERE user_id = $1 AND date = $2`, taking `rows[0]`. -/
def selectRow (l : List Row) (u d : String) : Option Row :=
  l.find? (rowMatches u d)

/-- `UPDATE t SET <nutrients> WHERE user_id = $1 AND date = $2`:
every matching row gets the new nutrient values, keys unchanged. -/
def updateRows (l : List Row) (u d : String) (rcd : IntakeRecord) : List Row :=
  l.map (fun r => if rowMatches u d r then Row.mk r.user_id r.date rcd else r)

/-- A plain `INSERT` appends a row. -/
def insertRow (l : List Row) (u d : String) (rcd : IntakeRecord) : List Row :=
  l ++ [Row.mk u d rcd]

/-- `INSERT ... ON CONFLICT (user_id, date) DO UPDATE SET <nutrients>`. -/
def upsertRow (l : List Row) (u d : String) (rcd : IntakeRecord) : List Row :=
  if l.any (rowMatches u d) then updateRows l u d rcd
  else insertRow l u d rcd

/-- Which intake table a request addresses. -/
inductive Table where
  | daily
  | weekly
  deriving DecidableEq, Repr

/-- The datastore: the `daily_intakes` and `weekly_intakes` tables. -/
structure Store where
  daily : List Row
  weekly : List Row
  deriving DecidableEq, Repr

/-- Read one table of the store. -/
def Store.table (st : Store) : Table → List Row
  | Table.daily => st.daily
  | Table.weekly => st.weekly

/-- Replace one table of the store. -/
def Store.setTable (st : Store) : Table → List Row → Store
  | Table.daily, l => Store.mk l st.weekly
  | Table.weekly, l => Store.mk st.daily l

/-- The empty datastore. -/
def emptyStore : Store := Store.mk [] []

/-- Source: `function tableForScope(scope)` — only the exact strings
`"daily"` and `"weekly"` select a table. -/
def tableForScope : Option String → Option Table
  | some s =>
      if s == "daily" then some Table.daily
      else if s == "weekly" then some Table.weekly
      else none
  | none => none

/-- The parsed request body: `const { scope, date, ...payload } = req.body`.
`payload` is the rest object, a finite map from JSON keys to values; keys
other than the six nutrient names may be present in it. -/
structure ReqBody where
  scope : Option String
  date : Option String
  payload : String → Option JVal

/-- A handler outcome: a JSON success envelope or a 400 error. -/
inductive Resp where
  | ok (status : String) (intake : IntakeRecord)
  | badRequest (error : String)
  deriving DecidableEq, Repr

/-- Whether the response is a success envelope. -/
def Resp.isOk : Resp → Bool
  | Resp.ok _ _ => true
  | Resp.badRequest _ => false

/-- The 400 message for a bad scope. -/
def scopeErrMsg : String := "scope must be 'daily' or 'weekly'"

/-- The 400 message for a missing date. -/
def dateErrMsg : String := "date is required (YYYY-MM-DD)"

/-- The record built from the payload alone, missing fields defaulting to 0:
`NUTRIENT_FIELDS.map((f) => Number(payload[f] ?? 0))`. -/
def recordOfPayload (payload : String → Option JVal) : IntakeRecord :=
  mkRecord (fun f => coerceField payload f)

/-- The base record of the `remove` handler: `rows[0] || { all zeroes }`. -/
def baseRecord (l : List Row) (u d : String) : IntakeRecord :=
  match selectRow l u d with
  | some r => r.intake
  | none => zeroRecord

/-- Handler of `POST /api/intake/add/:id`: validate scope and date, read the
existing row; if absent, insert the payload values (missing fields 0) and
answer `created`; if present, add each payload delta to the current value
and answer `updated`. -/
def applyIncrement (st : Store) (userId : String) (b : ReqBody) : Resp × Store :=
  match tableForScope b.scope with
  | none => (Resp.badRequest scopeErrMsg, st)
  | some table =>
    match b.date with
    | none => (Resp.badRequest dateErrMsg, st)
    | some d =>
      if d == "" then (Resp.badRequest dateErrMsg, st)
      else
        match selectRow (st.table table) userId d with
        | none =>
            let newRec := recordOfPayload b.payload
            (Resp.ok "created" newRec,
             st.setTable table (insertRow (st.table table) userId d newRec))
        | some current =>
            let newRec :=
              mkRecord (fun f => jadd (current.intake.get f) (coerceField b.payload f))
            (Resp.ok "updated" newRec,
             st.setTable table (updateRows (st.table table) userId d newRec))

/-- Handler of `PUT /api/intake/edit/:id`: validate scope and date, then
upsert the record to exactly the payload values (missing fields 0) and
answer `upserted`. -/
def applyOverwrite (st : Store) (userId : String) (b : ReqBody) : Resp × Store :=
  match tableForScope b.scope with
  | none => (Resp.badRequest scopeErrMsg, st)
  | some table =>
    match b.date with
    | none => (Resp.badRequest dateErrMsg, st)
    | some d =>
      if d == "" then (Resp.badRequest dateErrMsg, st)
      else
        let newRec := recordOfPayload b.payload
        (Resp.ok "upserted" newRec,
         st.setTable table (upsertRow (st.table table) userId d newRec))

/-- Handler of `POST /api/intake/remove/:id`: validate scope and date, read
the existing row (all-zero baseline when absent), clamp `base - delta`
at 0 per field, upsert the result and answer `updated`. -/
def applyDecrement (st : Store) (userId : String) (b : ReqBody) : Resp × Store :=
  match tableForScope b.scope with
  | none => (Resp.badRequest scopeErrMsg, st)
  | some table =>
    match b.date with
    | none => (Resp.badRequest dateErrMsg, st)
    | some d =>
      if d == "" then (Resp.badRequest dateErrMsg, st)
      else
        let base := baseRecord (st.table table) userId d
        let newRec :=
          mkRecord (fun f => clampNonNeg (jsub (base.get f) (coerceField b.payload f)))
        (Resp.ok "updated" newRec,
         st.setTable table (upsertRow (st.table table) userId d newRec))

/-- The three operations of the intake aggregator. -/
inductive Op where
  | add
  | edit
  | remove
  deriving DecidableEq, Repr

/-- Dispatch one of the three handlers. -/
def applyOp : Op → Store → String → ReqBody → Resp × Store
  | Op.add => applyIncrement
  | Op.edit => applyOverwrite
  | Op.remove => applyDecrement

/-- One request in a sequence of operations. -/
structure Call where
  op : Op
  userId : String
  body : ReqBody

/-- Run a sequence of requests against the store, keeping only the state. -/
def applySeq (calls : List Call) (st : Store) : Store :=
  calls.foldl (fun s c => (applyOp c.op s c.userId c.body).2) st

/-- At most one row per `(user_id, date)` key in a table. -/
def tableInv (l : List Row) : Prop := (l.map Row.key).Nodup

/-- The uniqueness invariant on both tables of the store. -/
def storeInv (st : Store) : Prop := tableInv st.daily ∧ tableInv st.weekly

instance (l : List Row) : Decidable (tableInv l) :=
  inferInstanceAs (Decidable ((l.map Row.key).Nodup))

instance (st : Store) : Decidable (storeInv st) :=
  inferInstanceAs (Decidable (tableInv st.daily ∧ tableInv st.weekly))

/-! Concrete fixtures used to instantiate the theorems below. -/

/-- A sample payload: calories 500, protein 20, nothing else. -/
def wPayload : String → Option JVal := fun s =>
  if s = "calories" then some (JVal.num 500)
  else if s = "protein" then some (JVal.num 20)
  else none

/-- The nutrient view of `wPayload` as an optional-rational mapping. -/
def wValues : NutrientField → Option ℚ
  | NutrientField.calories => some 500
  | NutrientField.protein => some 20
  | _ => none

/-- A sample valid request body carrying `wPayload`. -/
def wBody : ReqBody := ReqBody.mk (some "daily") (some "2024-01-01") wPayload

/-- The same body with an extra, unrecognized payload key. -/
def wPayloadExtra : String → Option JVal := fun s =>
  if s = "calories" then some (JVal.num 500)
  else if s = "protein" then some (JVal.num 20)
  else if s = "note" then some (JVal.str "cheat day")
  else none

/-- A body agreeing with `wBody` on scope, date and the six nutrient keys. -/
def wBodyExtra : ReqBody := ReqBody.mk (some "daily") (some "2024-01-01") wPayloadExtra

/-- A body whose scope is not daily or weekly. -/
def wBodyBadScope : ReqBody := ReqBody.mk (some "monthly") (some "2024-01-01") wPayload

/-- Nutrients of a pre-existing row: calories 200, the rest 0. -/
def wC : NutrientField → ℚ
  | NutrientField.calories => 200
  | _ => 0

/-- A store whose daily table already holds a row for ("u1", "2024-01-01"). -/
def wStore : Store :=
  Store.mk [Row.mk "u1" "2024-01-01" (mkRecord (fun f => JNum.val (wC f)))] []

/-- A payload whose calories value is the non-numeric string "abc". -/
def nanPayload : String → Option JVal := fun s =>
  if s = "calories" then some (JVal.str "abc") else none

/-- A valid request body carrying the non-coercible calories value. -/
def nanBody : ReqBody := ReqBody.mk (some "daily") (some "2024-01-01") nanPayload

/-- The record the add handler builds from `nanPayload`: NaN calories. -/
def nanRecord : IntakeRecord :=
  IntakeRecord.mk JNum.nan (JNum.val 0) (JNum.val 0) (JNum.val 0) (JNum.val 0) (JNum.val 0)

/-! Basic lemmas about the embedded primitives. -/

theorem mkRecord_get (g : NutrientField → JNum) (f : NutrientField) :
    (mkRecord g).get f = g f := by
  cases f <;> rfl

theorem rowMatches_iff (u d : String) (r : Row) :
    rowMatches u d r = true ↔ r.user_id = u ∧ r.date = d := by
  simp [rowMatches]

theorem rowMatches_mk (u d : String) (rcd : IntakeRecord) :
    rowMatches u d (Row.mk u d rcd) = true := by
  simp [rowMatches]

theorem clampNonNeg_val (x : ℚ) :
    clampNonNeg (JNum.val x) = JNum.val (max 0 x) := by
  by_cases h : x < 0
  · simp [clampNonNeg, jlt, h, max_eq_left h.le]
  · simp [clampNonNeg, jlt, h, max_eq_right (not_lt.mp h)]

theorem clampNonNeg_nan : clampNonNeg JNum.nan = JNum.nan := rfl

theorem jadd_nan (x : JNum) : jadd x JNum.nan = JNum.nan := by
  cases x <;> rfl

theorem jsub_nan (x : JNum) : jsub x JNum.nan = JNum.nan := by
  cases x <;> rfl

theorem coerceField_num (payload : String → Option JVal)
    (V : NutrientField → Option ℚ) (f : NutrientField)
    (hp : payload (fieldName f) = Option.map JVal.num (V f)) :
    coerceField payload f = JNum.val ((V f).getD 0) := by
  cases hV : V f <;> simp [coerceField, hp, hV, jsNumber]

theorem Store.table_setTable (st : Store) (t : Table) (l : List Row) :
    (st.setTable t l).table t = l := by
  cases t <;> rfl

theorem Store.setTable_setTable (st : Store) (t : Table) (l l2 : List Row) :
    (st.setTable t l).setTable t l2 = st.setTable t l2 := by
  cases t <;> rfl

/-! Lemmas about the embedded table operations. -/

theorem selectRow_insert (l : List Row) (u d : String) (rcd : IntakeRecord)
    (h : selectRow l u d = none) :
    selectRow (insertRow l u d rcd) u d = some (Row.mk u d rcd) := by
  induction l with
  | nil => simp [selectRow, insertRow, rowMatches_mk]
  | cons a t ih =>
      rcases hm : rowMatches u d a with _ | _
      · have hneg : ¬ rowMatches u d a = true := by simp [hm]
        have h2 : selectRow t u d = none := by
          unfold selectRow at h
          rwa [List.find?_cons_of_neg _ hneg] at h
        have h3 := ih h2
        unfold selectRow insertRow at h3 ⊢
        rw [List.cons_append, List.find?_cons_of_neg _ hneg]
        exact h3
      · exfalso
        unfold selectRow at h
        rw [List.find?_cons_of_pos _ hm] at h
        cases h

theorem selectRow_updateRows (l : List Row) (u d : String) (rcd : IntakeRecord)
    (h : l.any (rowMatches u d) = true) :
    selectRow (updateRows l u d rcd) u d = some (Row.mk u d rcd) := by
  induction l with
  | nil => simp at h
  | cons a t ih =>
      rcases hm : rowMatches u d a with _ | _
      · have hneg : ¬ rowMatches u d a = true := by simp [hm]
        have ht : t.any (rowMatches u d) = true := by
          simpa [hm] using h
        have hup : updateRows (a :: t) u d rcd = a :: updateRows t u d rcd := by
          simp [updateRows, hm]
        rw [hup]
        have h3 := ih ht
        unfold selectRow at h3 ⊢
        rw [List.find?_cons_of_neg _ hneg]
        exact h3
      · obtain ⟨h1, h2⟩ := (rowMatches_iff u d a).mp hm
        have hup : updateRows (a :: t) u d rcd = Row.mk u d rcd :: updateRows t u d rcd := by
          simp [updateRows, hm, h1, h2]
        rw [hup]
        unfold selectRow
        rw [List.find?_cons_of_pos _ (rowMatches_mk u d rcd)]

theorem any_of_selectRow_some (l : List Row) (u d : String) (r : Row)
    (h : selectRow l u d = some r) :
    l.any (rowMatches u d) = true := by
  have hmem := List.mem_of_find?_eq_some h
  have hp := List.find?_some h
  exact List.any_eq_true.mpr ⟨r, hmem, hp⟩

theorem selectRow_upsert (l : List Row) (u d : String) (rcd : IntakeRecord) :
    selectRow (upsertRow l u d rcd) u d = some (Row.mk u d rcd) := by
  rcases ha : l.any (rowMatches u d) with _ | _
  · have hn : selectRow l u d = none := by
      rcases hf : selectRow l u d with _ | r
      · rfl
      · rw [any_of_selectRow_some l u d r hf] at ha; cases ha
    simp only [upsertRow, ha, Bool.false_eq_true, if_false]
    exact selectRow_insert l u d rcd hn
  · simp only [upsertRow, ha, if_true]
    exact selectRow_updateRows l u d rcd ha

theorem map_key_updateRows (l : List Row) (u d : String) (rcd : IntakeRecord) :
    (updateRows l u d rcd).map Row.key = l.map Row.key := by
  induction l with
  | nil => rfl
  | cons a t ih =>
      rcases hm : rowMatches u d a with _ | _ <;>
        simp [updateRows, hm, Row.key] at ih ⊢ <;> exact ih

theorem not_mem_key_of_not_any (l : List Row) (u d : String)
    (h : l.any (rowMatches u d) = false) :
    (u, d) ∉ l.map Row.key := by
  intro hmem
  obtain ⟨r, hr, hk⟩ := List.mem_map.mp hmem
  have : rowMatches u d r = true := by
    apply (rowMatches_iff u d r).mpr
    have h1 : r.user_id = u := congrArg Prod.fst hk
    have h2 : r.date = d := congrArg Prod.snd hk
    exact ⟨h1, h2⟩
  have := List.any_eq_true.mpr ⟨r, hr, this⟩
  rw [h] at this; cases this

theorem tableInv_updateRows (l : List Row) (u d : String) (rcd : IntakeRecord)
    (h : tableInv l) : tableInv (updateRows l u d rcd) := by
  unfold tableInv
  rw [map_key_updateRows]
  exact h

theorem tableInv_insert (l : List Row) (u d : String) (rcd : IntakeRecord)
    (h : tableInv l) (hn : l.any (rowMatches u d) = false) :
    tableInv (insertRow l u d rcd) := by
  unfold tableInv insertRow
  rw [List.map_append]
  refine List.Nodup.append h (List.nodup_singleton _) ?_
  intro k hk hk2
  simp only [List.map_cons, List.map_nil, List.mem_singleton] at hk2
  subst hk2
  exact not_mem_key_of_not_any l u d hn hk

theorem tableInv_upsert (l : List Row) (u d : String) (rcd : IntakeRecord)
    (h : tableInv l) : tableInv (upsertRow l u d rcd) := by
  rcases ha : l.any (rowMatches u d) with _ | _
  · simp only [upsertRow, ha, Bool.false_eq_true, if_false]
    exact tableInv_insert l u d rcd h ha
  · simp only [upsertRow, ha, if_true]
    exact tableInv_updateRows l u d rcd h

theorem storeInv_setTable (st : Store) (t : Table) (l : List Row)
    (h : storeInv st) (hl : tableInv l) : storeInv (st.setTable t l) := by
  cases t
  · exact ⟨hl, h.2⟩
  · exact ⟨h.1, hl⟩

theorem upsertRow_of_any (l : List Row) (u d : String) (rcd : IntakeRecord)
    (h : l.any (rowMatches u d) = true) :
    upsertRow l u d rcd = updateRows l u d rcd := by
  simp only [upsertRow, h, if_true]

theorem any_upsertRow (l : List Row) (u d : String) (rcd : IntakeRecord) :
    (upsertRow l u d rcd).any (rowMatches u d) = true :=
  any_of_selectRow_some _ u d _ (selectRow_upsert l u d rcd)

theorem intake_of_mem_upsert (l : List Row) (u d : String) (rcd : IntakeRecord) :
    ∀ r ∈ upsertRow l u d rcd, rowMatches u d r = true → r.intake = rcd := by
  intro r hr hmr
  rcases ha : l.any (rowMatches u d) with _ | _
  · rw [upsertRow, ha] at hr
    simp only [Bool.false_eq_true, if_false, insertRow, List.mem_append,
      List.mem_singleton] at hr
    rcases hr with hr | hr
    · exfalso
      have := List.any_eq_true.mpr ⟨r, hr, hmr⟩
      rw [ha] at this; cases this
    · rw [hr]
  · rw [upsertRow, ha, if_pos rfl] at hr
    obtain ⟨a, _, hfa⟩ := List.mem_map.mp hr
    rcases hma : rowMatches u d a with _ | _
    · rw [hma] at hfa
      simp only [Bool.false_eq_true, if_false] at hfa
      rw [← hfa] at hmr
      rw [hmr] at hma; cases hma
    · rw [hma, if_pos rfl] at hfa
      rw [← hfa]

theorem updateRows_eq_self (l : List Row) (u d : String) (rcd : IntakeRecord)
    (h : ∀ r ∈ l, rowMatches u d r = true → r.intake = rcd) :
    updateRows l u d rcd = l := by
  induction l with
  | nil => rfl
  | cons a t ih =>
      have ht : updateRows t u d rcd = t :=
        ih (fun r hr => h r (List.mem_cons_of_mem a hr))
      rcases hm : rowMatches u d a with _ | _
      · have hstep : updateRows (a :: t) u d rcd = a :: updateRows t u d rcd := by
          simp [updateRows, hm]
        rw [hstep, ht]
      · have hi : a.intake = rcd := h a (List.mem_cons_self a t) hm
        have ha2 : Row.mk a.user_id a.date rcd = a := by
          cases a
          simp only [Row.mk.injEq]
          exact ⟨trivial, trivial, hi.symm⟩
        have hstep : updateRows (a :: t) u d rcd
            = Row.mk a.user_id a.date rcd :: updateRows t u d rcd := by
          simp [updateRows, hm]
        rw [hstep, ha2, ht]

theorem upsertRow_idem (l : List Row) (u d : String) (rcd : IntakeRecord) :
    upsertRow (upsertRow l u d rcd) u d rcd = upsertRow l u d rcd := by
  rw [upsertRow_of_any _ _ _ _ (any_upsertRow l u d rcd),
    updateRows_eq_self _ _ _ _ (intake_of_mem_upsert l u d rcd)]

theorem jadd_val (a b : ℚ) : jadd (JNum.val a) (JNum.val b) = JNum.val (a + b) := rfl

theorem jsub_val (a b : ℚ) : jsub (JNum.val a) (JNum.val b) = JNum.val (a - b) := rfl

theorem not_any_of_selectRow_none (l : List Row) (u d : String)
    (h : selectRow l u d = none) : l.any (rowMatches u d) = false := by
  rcases ha : l.any (rowMatches u d) with _ | _
  · rfl
  · obtain ⟨r, hr, hp⟩ := List.any_eq_true.mp ha
    have := List.find?_eq_none.mp h r hr
    rw [hp] at this
    cases this rfl

theorem storeInv_table (st : Store) (t : Table) (h : storeInv st) :
    tableInv (st.table t) := by
  cases t
  · exact h.1
  · exact h.2

theorem allNonneg_mk_max (g : NutrientField → ℚ) :
    (mkRecord (fun f => JNum.val (max 0 (g f)))).allNonneg = true := by
  simp [IntakeRecord.allNonneg, NUTRIENT_FIELDS, mkRecord_get, JNum.isNonneg, le_max_left]

/-- C4: Apply-Increment on an absent key with valid scope and date creates a
record whose field f is the delta V f when present and 0 when omitted, and
the response is tagged created. -/
theorem applyIncrement_absent_creates
    (st : Store) (u : String) (b : ReqBody) (t : Table) (d : String)
    (V : NutrientField → Option ℚ)
    (hs : tableForScope b.scope = some t)
    (hd : b.date = some d)
    (hne : (d == "") = false)
    (hp : ∀ f, b.payload (fieldName f) = Option.map JVal.num (V f))
    (habs : selectRow (st.table t) u d = none) :
    (applyIncrement st u b).1
      = Resp.ok "created" (mkRecord (fun f => JNum.val ((V f).getD 0))) ∧
    selectRow (((applyIncrement st u b).2).table t) u d
      = some (Row.mk u d (mkRecord (fun f => JNum.val ((V f).getD 0)))) := by
  have hrec : recordOfPayload b.payload
      = mkRecord (fun f => JNum.val ((V f).getD 0)) :=
    congrArg mkRecord (funext fun f => coerceField_num b.payload V f (hp f))
  simp only [applyIncrement, hs, hd, hne, Bool.false_eq_true, if_false, habs, hrec]
  refine ⟨trivial, ?_⟩
  rw [Store.table_setTable]
  exact selectRow_insert _ u d _ habs

theorem applyIncrement_absent_creates_witness :
    (applyIncrement emptyStore "u1" wBody).1
      = Resp.ok "created" (mkRecord (fun f => JNum.val ((wValues f).getD 0))) ∧
    selectRow (((applyIncrement emptyStore "u1" wBody).2).table Table.daily)
        "u1" "2024-01-01"
      = some (Row.mk "u1" "2024-01-01"
          (mkRecord (fun f => JNum.val ((wValues f).getD 0)))) :=
  applyIncrement_absent_creates emptyStore "u1" wBody Table.daily "2024-01-01"
    wValues rfl rfl rfl (by intro f; cases f <;> rfl) rfl

/-- C3: Apply-Increment on an existing record R adds each delta to the
current field value, stores the sums, and the response is tagged updated. -/
theorem applyIncrement_existing_adds
    (st : Store) (u : String) (b : ReqBody) (t : Table) (d : String)
    (r0 : Row) (C : NutrientField → ℚ) (D : NutrientField → Option ℚ)
    (hs : tableForScope b.scope = some t)
    (hd : b.date = some d)
    (hne : (d == "") = false)
    (hp : ∀ f, b.payload (fieldName f) = Option.map JVal.num (D f))
    (hcur : selectRow (st.table t) u d = some r0)
    (hr0 : ∀ f, r0.intake.get f = JNum.val (C f)) :
    (applyIncrement st u b).1
      = Resp.ok "updated" (mkRecord (fun f => JNum.val (C f + (D f).getD 0))) ∧
    selectRow (((applyIncrement st u b).2).table t) u d
      = some (Row.mk u d (mkRecord (fun f => JNum.val (C f + (D f).getD 0)))) := by
  have hrec : mkRecord (fun f => jadd (r0.intake.get f) (coerceField b.payload f))
      = mkRecord (fun f => JNum.val (C f + (D f).getD 0)) := by
    refine congrArg mkRecord (funext fun f => ?_)
    rw [hr0 f, coerceField_num b.payload D f (hp f), jadd_val]
  simp only [applyIncrement, hs, hd, hne, Bool.false_eq_true, if_false, hcur, hrec]
  refine ⟨trivial, ?_⟩
  rw [Store.table_setTable]
  exact selectRow_updateRows _ u d _ (any_of_selectRow_some _ u d r0 hcur)

theorem applyIncrement_existing_adds_witness :
    (applyIncrement wStore "u1" wBody).1
      = Resp.ok "updated" (mkRecord (fun f => JNum.val (wC f + (wValues f).getD 0))) ∧
    selectRow (((applyIncrement wStore "u1" wBody).2).table Table.daily)
        "u1" "2024-01-01"
      = some (Row.mk "u1" "2024-01-01"
          (mkRecord (fun f => JNum.val (wC f + (wValues f).getD 0)))) :=
  applyIncrement_existing_adds wStore "u1" wBody Table.daily "2024-01-01"
    (Row.mk "u1" "2024-01-01" (mkRecord (fun f => JNum.val (wC f)))) wC wValues
    rfl rfl rfl (by intro f; cases f <;> rfl) (by decide)
    (by intro f; cases f <;> rfl)

/-- C2: Apply-Overwrite stores exactly the provided values, zeroing omitted
fields regardless of the prior record, and the response is tagged upserted. -/
theorem applyOverwrite_sets
    (st : Store) (u : String) (b : ReqBody) (t : Table) (d : String)
    (V : NutrientField → Option ℚ)
    (hs : tableForScope b.scope = some t)
    (hd : b.date = some d)
    (hne : (d == "") = false)
    (hp : ∀ f, b.payload (fieldName f) = Option.map JVal.num (V f)) :
    (applyOverwrite st u b).1
      = Resp.ok "upserted" (mkRecord (fun f => JNum.val ((V f).getD 0))) ∧
    selectRow (((applyOverwrite st u b).2).table t) u d
      = some (Row.mk u d (mkRecord (fun f => JNum.val ((V f).getD 0)))) := by
  have hrec : recordOfPayload b.payload
      = mkRecord (fun f => JNum.val ((V f).getD 0)) :=
    congrArg mkRecord (funext fun f => coerceField_num b.payload V f (hp f))
  simp only [applyOverwrite, hs, hd, hne, Bool.false_eq_true, if_false, hrec]
  refine ⟨trivial, ?_⟩
  rw [Store.table_setTable]
  exact selectRow_upsert _ u d _

theorem applyOverwrite_sets_witness :
    (applyOverwrite wStore "u1" wBody).1
      = Resp.ok "upserted" (mkRecord (fun f => JNum.val ((wValues f).getD 0))) ∧
    selectRow (((applyOverwrite wStore "u1" wBody).2).table Table.daily)
        "u1" "2024-01-01"
      = some (Row.mk "u1" "2024-01-01"
          (mkRecord (fun f => JNum.val ((wValues f).getD 0)))) :=
  applyOverwrite_sets wStore "u1" wBody Table.daily "2024-01-01" wValues
    rfl rfl rfl (by intro f; cases f <;> rfl)

/-- C1: Apply-Decrement with numeric deltas stores, for every field, the
clamp max 0 (current - delta) where current is the existing record or the
all-zero baseline, and no stored nutrient field is negative afterwards. -/
theorem applyDecrement_clamps
    (st : Store) (u : String) (b : ReqBody) (t : Table) (d : String)
    (C : NutrientField → ℚ) (V : NutrientField → Option ℚ)
    (hs : tableForScope b.scope = some t)
    (hd : b.date = some d)
    (hne : (d == "") = false)
    (hp : ∀ f, b.payload (fieldName f) = Option.map JVal.num (V f))
    (hbase : ∀ f, (baseRecord (st.table t) u d).get f = JNum.val (C f)) :
    (applyDecrement st u b).1
      = Resp.ok "updated"
          (mkRecord (fun f => JNum.val (max 0 (C f - (V f).getD 0)))) ∧
    selectRow (((applyDecrement st u b).2).table t) u d
      = some (Row.mk u d
          (mkRecord (fun f => JNum.val (max 0 (C f - (V f).getD 0))))) ∧
    (mkRecord (fun f => JNum.val (max 0 (C f - (V f).getD 0)))).allNonneg = true := by
  have hrec : mkRecord (fun f =>
        clampNonNeg (jsub ((baseRecord (st.table t) u d).get f) (coerceField b.payload f)))
      = mkRecord (fun f => JNum.val (max 0 (C f - (V f).getD 0))) := by
    refine congrArg mkRecord (funext fun f => ?_)
    rw [hbase f, coerceField_num b.payload V f (hp f), jsub_val, clampNonNeg_val]
  simp only [applyDecrement, hs, hd, hne, Bool.false_eq_true, if_false, hrec]
  refine ⟨trivial, ?_, allNonneg_mk_max _⟩
  rw [Store.table_setTable]
  exact selectRow_upsert _ u d _

theorem applyDecrement_clamps_witness :
    (applyDecrement wStore "u1" wBody).1
      = Resp.ok "updated"
          (mkRecord (fun f => JNum.val (max 0 (wC f - (wValues f).getD 0)))) ∧
    selectRow (((applyDecrement wStore "u1" wBody).2).table Table.daily)
        "u1" "2024-01-01"
      = some (Row.mk "u1" "2024-01-01"
          (mkRecord (fun f => JNum.val (max 0 (wC f - (wValues f).getD 0))))) ∧
    (mkRecord (fun f => JNum.val (max 0 (wC f - (wValues f).getD 0)))).allNonneg
      = true :=
  applyDecrement_clamps wStore "u1" wBody Table.daily "2024-01-01" wC wValues
    rfl rfl rfl (by intro f; cases f <;> rfl) (by intro f; cases f <;> rfl)

/-- C5: Apply-Decrement on an absent key with nonnegative deltas materializes
an all-zero record at that key, and the response is tagged updated. -/
theorem applyDecrement_absent_materializes
    (st : Store) (u : String) (b : ReqBody) (t : Table) (d : String)
    (V : NutrientField → Option ℚ)
    (hs : tableForScope b.scope = some t)
    (hd : b.date = some d)
    (hne : (d == "") = false)
    (hp : ∀ f, b.payload (fieldName f) = Option.map JVal.num (V f))
    (habs : selectRow (st.table t) u d = none)
    (hnn : ∀ f, 0 ≤ ((V f).getD 0 : ℚ)) :
    (applyDecrement st u b).1 = Resp.ok "updated" zeroRecord ∧
    selectRow (((applyDecrement st u b).2).table t) u d
      = some (Row.mk u d zeroRecord) := by
  have hbase : baseRecord (st.table t) u d = zeroRecord := by
    unfold baseRecord
    rw [habs]
  have hrec : mkRecord (fun f =>
        clampNonNeg (jsub ((baseRecord (st.table t) u d).get f) (coerceField b.payload f)))
      = zeroRecord := by
    refine Eq.trans (congrArg mkRecord (funext fun f => ?_)) rfl
    rw [hbase, coerceField_num b.payload V f (hp f)]
    have h0 : (zeroRecord.get f) = JNum.val 0 := by
      cases f <;> rfl
    rw [h0, jsub_val, clampNonNeg_val]
    have : max 0 (0 - (V f).getD 0) = 0 :=
      max_eq_left (by simpa using neg_nonpos.mpr (hnn f))
    rw [this]
  simp only [applyDecrement, hs, hd, hne, Bool.false_eq_true, if_false, hrec]
  refine ⟨trivial, ?_⟩
  rw [Store.table_setTable]
  exact selectRow_upsert _ u d _

theorem applyDecrement_absent_materializes_witness :
    (applyDecrement emptyStore "u1" wBody).1 = Resp.ok "updated" zeroRecord ∧
    selectRow (((applyDecrement emptyStore "u1" wBody).2).table Table.daily)
        "u1" "2024-01-01"
      = some (Row.mk "u1" "2024-01-01" zeroRecord) :=
  applyDecrement_absent_materializes emptyStore "u1" wBody Table.daily
    "2024-01-01" wValues rfl rfl rfl (by intro f; cases f <;> rfl) rfl
    (by intro f; cases f <;> decide)

/-- C6: a request with an invalid scope or a missing date is rejected by any
of the three operations with a 400 error (naming the allowed values when the
scope is bad), and the store is left unchanged. -/
theorem applyOp_rejects_invalid (op : Op) (st : Store) (u : String) (b : ReqBody)
    (h : tableForScope b.scope = none ∨ b.date = none) :
    (applyOp op st u b).2 = st ∧
    (applyOp op st u b).1
      = Resp.badRequest
          (if tableForScope b.scope = none then scopeErrMsg else dateErrMsg) := by
  rcases h with h | h
  · cases op <;>
      simp [applyOp, applyIncrement, applyOverwrite, applyDecrement, h]
  · cases hsc : tableForScope b.scope with
    | none =>
        cases op <;>
          simp [applyOp, applyIncrement, applyOverwrite, applyDecrement, hsc]
    | some t =>
        cases op <;>
          simp [applyOp, applyIncrement, applyOverwrite, applyDecrement, hsc, h]

theorem applyOp_rejects_invalid_witness :
    (applyOp Op.add emptyStore "u1" wBodyBadScope).2 = emptyStore ∧
    (applyOp Op.add emptyStore "u1" wBodyBadScope).1
      = Resp.badRequest
          (if tableForScope wBodyBadScope.scope = none then scopeErrMsg
           else dateErrMsg) :=
  applyOp_rejects_invalid Op.add emptyStore "u1" wBodyBadScope (Or.inl rfl)

/-- C8: Apply-Overwrite is idempotent — running the same overwrite request a
second time returns the same response and leaves the store it produced. -/
theorem applyOverwrite_idempotent (st : Store) (u : String) (b : ReqBody) :
    applyOverwrite ((applyOverwrite st u b).2) u b = applyOverwrite st u b := by
  cases hsc : tableForScope b.scope with
  | none => simp [applyOverwrite, hsc]
  | some t =>
    cases hd : b.date with
    | none => simp [applyOverwrite, hsc, hd]
    | some d =>
      rcases hne : d == "" with _ | _
      · simp only [applyOverwrite, hsc, hd, hne, Bool.false_eq_true, if_false]
        rw [Store.table_setTable, upsertRow_idem, Store.setTable_setTable]
      · simp [applyOverwrite, hsc, hd, hne]

theorem storeInv_applyOp (op : Op) (st : Store) (u : String) (b : ReqBody)
    (h : storeInv st) : storeInv ((applyOp op st u b).2) := by
  cases hsc : tableForScope b.scope with
  | none =>
      cases op <;>
        simpa [applyOp, applyIncrement, applyOverwrite, applyDecrement, hsc] using h
  | some t =>
    cases hd : b.date with
    | none =>
        cases op <;>
          simpa [applyOp, applyIncrement, applyOverwrite, applyDecrement, hsc, hd] using h
    | some d =>
      rcases hne : d == "" with _ | _
      · cases op with
        | add =>
            cases hsel : selectRow (st.table t) u d with
            | none =>
                simp only [applyOp, applyIncrement, hsc, hd, hne,
                  Bool.false_eq_true, if_false, hsel]
                exact storeInv_setTable st t _ h
                  (tableInv_insert _ u d _ (storeInv_table st t h)
                    (not_any_of_selectRow_none _ u d hsel))
            | some r0 =>
                simp only [applyOp, applyIncrement, hsc, hd, hne,
                  Bool.false_eq_true, if_false, hsel]
                exact storeInv_setTable st t _ h
                  (tableInv_updateRows _ u d _ (storeInv_table st t h))
        | edit =>
            simp only [applyOp, applyOverwrite, hsc, hd, hne,
              Bool.false_eq_true, if_false]
            exact storeInv_setTable st t _ h
              (tableInv_upsert _ u d _ (storeInv_table st t h))
        | remove =>
            simp only [applyOp, applyDecrement, hsc, hd, hne,
              Bool.false_eq_true, if_false]
            exact storeInv_setTable st t _ h
              (tableInv_upsert _ u d _ (storeInv_table st t h))
      · cases op <;>
          simpa [applyOp, applyIncrement, applyOverwrite, applyDecrement,
            hsc, hd, hne] using h

/-- C9: every sequence of add, edit and remove operations preserves the
invariant that each table holds at most one row per (user_id, date) key. -/
theorem applySeq_preserves_unique (calls : List Call) (st : Store)
    (h : storeInv st) : storeInv (applySeq calls st) := by
  induction calls generalizing st with
  | nil => exact h
  | cons c rest ih =>
      exact ih _ (storeInv_applyOp c.op st c.userId c.body h)

theorem applySeq_preserves_unique_witness :
    storeInv emptyStore ∧
    storeInv (applySeq
      [Call.mk Op.add "u1" wBody, Call.mk Op.add "u1" wBody,
       Call.mk Op.edit "u1" wBody, Call.mk Op.remove "u1" wBody] emptyStore) :=
  ⟨by decide,
   applySeq_preserves_unique
     [Call.mk Op.add "u1" wBody, Call.mk Op.add "u1" wBody,
      Call.mk Op.edit "u1" wBody, Call.mk Op.remove "u1" wBody]
     emptyStore (by decide)⟩

/-- C10: request bodies agreeing on scope, date and the six nutrient keys
produce identical responses and stores under each operation — extra payload
keys have no effect. -/
theorem applyOp_ignores_extra_keys (op : Op) (st : Store) (u : String)
    (b1 b2 : ReqBody)
    (hsc : b1.scope = b2.scope)
    (hd : b1.date = b2.date)
    (hp : ∀ f, b1.payload (fieldName f) = b2.payload (fieldName f)) :
    applyOp op st u b1 = applyOp op st u b2 := by
  have hco : coerceField b1.payload = coerceField b2.payload :=
    funext fun f => by simp [coerceField, hp f]
  have hrec : recordOfPayload b1.payload = recordOfPayload b2.payload := by
    unfold recordOfPayload
    rw [hco]
  cases op <;>
    simp only [applyOp, applyIncrement, applyOverwrite, applyDecrement,
      hsc, hd, hco, hrec]

theorem applyOp_ignores_extra_keys_witness :
    applyOp Op.add emptyStore "u1" wBody = applyOp Op.add emptyStore "u1" wBodyExtra :=
  applyOp_ignores_extra_keys Op.add emptyStore "u1" wBody wBodyExtra
    rfl rfl (by intro f; cases f <;> rfl)

/-- C7 counterexample: a request whose calories value is the non-coercible
string "abc" is not rejected — the add handler answers a success envelope
whose calories field is NaN, and the datastore is written (the store
changes and afterwards holds the NaN record at the key). -/
theorem applyIncrement_nan_not_rejected :
    (applyOp Op.add emptyStore "u1" nanBody).1 = Resp.ok "created" nanRecord ∧
    (applyOp Op.add emptyStore "u1" nanBody).2 ≠ emptyStore ∧
    selectRow (((applyOp Op.add emptyStore "u1" nanBody).2).table Table.daily)
        "u1" "2024-01-01"
      = some (Row.mk "u1" "2024-01-01" nanRecord) := by
  refine ⟨by decide, by decide, by decide⟩

/-- C7 (amended): a nutrient field that coerces to NaN is not rejected by
any of the three operations; the operation succeeds and the NaN is
propagated into the stored record at the addressed key. -/
theorem applyOp_nan_propagates (op : Op) (st : Store) (u : String) (b : ReqBody)
    (t : Table) (d : String) (f : NutrientField)
    (hs : tableForScope b.scope = some t)
    (hd : b.date = some d)
    (hne : (d == "") = false)
    (hnan : coerceField b.payload f = JNum.nan) :
    ((applyOp op st u b).1).isOk = true ∧
    Option.map (fun r => r.intake.get f)
        (selectRow (((applyOp op st u b).2).table t) u d)
      = some JNum.nan := by
  cases op with
  | add =>
      cases hsel : selectRow (st.table t) u d with
      | none =>
          simp only [applyOp, applyIncrement, hs, hd, hne, Bool.false_eq_true,
            if_false, hsel]
          refine ⟨rfl, ?_⟩
          rw [Store.table_setTable, selectRow_insert _ u d _ hsel]
          simp only [Option.map_some', recordOfPayload, mkRecord_get]
          rw [hnan]
      | some r0 =>
          simp only [applyOp, applyIncrement, hs, hd, hne, Bool.false_eq_true,
            if_false, hsel]
          refine ⟨rfl, ?_⟩
          rw [Store.table_setTable,
            selectRow_updateRows _ u d _ (any_of_selectRow_some _ u d r0 hsel)]
          simp only [Option.map_some', mkRecord_get]
          rw [hnan, jadd_nan]
  | edit =>
      simp only [applyOp, applyOverwrite, hs, hd, hne, Bool.false_eq_true, if_false]
      refine ⟨rfl, ?_⟩
      rw [Store.table_setTable, selectRow_upsert _ u d _]
      simp only [Option.map_some', recordOfPayload, mkRecord_get]
      rw [hnan]
  | remove =>
      simp only [applyOp, applyDecrement, hs, hd, hne, Bool.false_eq_true, if_false]
      refine ⟨rfl, ?_⟩
      rw [Store.table_setTable, selectRow_upsert _ u d _]
      simp only [Option.map_some', mkRecord_get]
      rw [hnan, jsub_nan, clampNonNeg_nan]

theorem applyOp_nan_propagates_witness :
    ((applyOp Op.edit emptyStore "u1" nanBody).1).isOk = true ∧
    Option.map (fun r => r.intake.get NutrientField.calories)
        (selectRow (((applyOp Op.edit emptyStore "u1" nanBody).2).table Table.daily)
          "u1" "2024-01-01")
      = some JNum.nan :=
  applyOp_nan_propagates Op.edit emptyStore "u1" nanBody Table.daily
    "2024-01-01" NutrientField.calories rfl rfl rfl (by decide)
